import Mathlib

/-!
Shallow embedding of the BasicAuthenticator reconcile loop from
`internal/controller/basicauthenticator_controller.go`.

The reconcile function is modelled as a pure function from a store state
(the single AuthResource plus its dependent secrets, configmaps and
deployments) to a store state, together with the controller-runtime
result (requeue flag), the returned error, and a trace of the store
operations performed.  Store reads are always logged; store writes are
logged only when they succeed.  Transient store failures are injected
through an explicit `Faults` record so that every error branch of the Go
code is reachable.
-/

namespace BasicAuth

/-- Store errors as classified by the Go code via `errors.IsNotFound`. -/
inductive StoreErr where
  | notFound
  | other
deriving DecidableEq, Repr

/-- Spec fields of the BasicAuthenticator custom resource read by the
reconcile loop: `credentialsSecretRef`, `type` (standalone or sidecar),
the sidecar selection criteria, and the proxy configuration parameters
(abstracted into `configData` and `replicas`). -/
structure AuthSpec where
  credentialsSecretRef : String
  type : String
  selector : String
  configData : String
  replicas : Nat
deriving DecidableEq, Repr

/-- Status subresource of the BasicAuthenticator (the Go code stores
`int(foundDeployment.Status.ReadyReplicas)`). -/
structure AuthStatus where
  readyReplicas : Int
deriving DecidableEq, Repr

/-- The BasicAuthenticator custom resource. -/
structure BasicAuthenticator where
  name : String
  spec : AuthSpec
  status : AuthStatus
deriving DecidableEq, Repr

/-- A credential secret.  `hasOwner` records whether the object carries an
owner reference to the AuthResource. -/
structure Secret where
  name : String
  data : String
  hasOwner : Bool
deriving DecidableEq, Repr

/-- The nginx configmap; `data` abstracts its `Data` map, which the code
compares with `reflect.DeepEqual`. -/
structure ConfigMap where
  name : String
  data : String
  hasOwner : Bool
deriving DecidableEq, Repr

/-- A deployment spec.  `derived` abstracts the fields derived from the
AuthResource, `defaulted` the fields the store itself populates (generated
defaults), `podLabels` the pod-template labels used for sidecar selection,
and `hasProxy` whether the pod template contains the proxy container.
The Go code compares whole specs with `reflect.DeepEqual`. -/
structure DeploymentSpec where
  derived : String
  defaulted : Option String
  podLabels : String
  hasProxy : Bool
deriving DecidableEq, Repr

/-- A deployment object, standalone or sidecar target. -/
structure Deployment where
  name : String
  spec : DeploymentSpec
  readyReplicas : Int
  hasOwner : Bool
deriving DecidableEq, Repr

/-- The cluster store visible to one reconcile: the AuthResource under the
request's name (or `none` when deleted) and the dependent objects, all in
the resource's namespace, keyed by their `name` field. -/
structure StoreState where
  auth : Option BasicAuthenticator
  secrets : List Secret
  configmaps : List ConfigMap
  deployments : List Deployment
deriving DecidableEq, Repr

/-- Point read by name. -/
def findBy {α : Type} (nameOf : α → String) : List α → String → Option α
  | [], _ => none
  | e :: t, n => if nameOf e = n then some e else findBy nameOf t n

/-- Write by name: replace the object of the same name, or append. -/
def upsertBy {α : Type} (nameOf : α → String) : List α → α → List α
  | [], v => [v]
  | e :: t, v => if nameOf e = nameOf v then v :: t else e :: upsertBy nameOf t v

/-- Injected transient store failures, keyed by object name, used to reach
the error branches of the Go code.  `createFail` and `updateFail` make the
corresponding write fail without modifying the store. -/
structure Faults where
  getAuthFail : Bool
  getSecretFail : List String
  getConfigMapFail : List String
  getDeploymentFail : List String
  createFail : List String
  updateFail : List String
  statusUpdateFail : Bool
  injectFail : Bool
deriving DecidableEq, Repr

/-- No injected faults: the store behaves normally. -/
def noFaults : Faults := ⟨false, [], [], [], [], [], false, false⟩

/-- Trace entry: one store operation performed by the reconcile.  Reads
are logged always, writes only when they succeed. -/
inductive Op where
  | getAuth
  | getSecret (name : String)
  | createSecret (s : Secret)
  | updateAuth (a : BasicAuthenticator)
  | getConfigMap (name : String)
  | createConfigMap (c : ConfigMap)
  | updateConfigMap (c : ConfigMap)
  | getDeployment (name : String)
  | createDeployment (d : Deployment)
  | updateDeployment (d : Deployment)
  | updateStatus (a : BasicAuthenticator)
  | listDeployments
deriving DecidableEq, Repr

/-- Whether a trace entry is a write to the store. -/
def Op.isWrite : Op → Bool
  | .createSecret _ => true
  | .updateAuth _ => true
  | .createConfigMap _ => true
  | .updateConfigMap _ => true
  | .createDeployment _ => true
  | .updateDeployment _ => true
  | .updateStatus _ => true
  | _ => false

/-- Whether a trace entry touches a dependent object (anything but the
AuthResource itself). -/
def Op.isDependent : Op → Bool
  | .getAuth => false
  | .updateAuth _ => false
  | .updateStatus _ => false
  | _ => true

/-- The `ctrl.Result` returned by Reconcile; only the `Requeue` flag is
ever set by this controller. -/
structure CtrlResult where
  requeue : Bool
deriving DecidableEq, Repr

/-- Outcome of one reconcile invocation: the returned result and error,
the final store state, and the trace of operations in order. -/
structure RecOutcome where
  result : CtrlResult
  error : Option StoreErr
  state : StoreState
  ops : List Op
deriving DecidableEq, Repr

deriving instance DecidableEq for Except

/-- Read of the AuthResource (`r.Get(ctx, req.NamespacedName, ...)`). -/
def getAuthOp (f : Faults) (σ : StoreState) : Except StoreErr BasicAuthenticator :=
  if f.getAuthFail then .error .other
  else match σ.auth with
    | some a => .ok a
    | none => .error .notFound

/-- Read of a secret by name. -/
def getSecretOp (f : Faults) (σ : StoreState) (n : String) : Except StoreErr Secret :=
  if f.getSecretFail.contains n then .error .other
  else match findBy Secret.name σ.secrets n with
    | some s => .ok s
    | none => .error .notFound

/-- Read of a configmap by name. -/
def getConfigMapOp (f : Faults) (σ : StoreState) (n : String) : Except StoreErr ConfigMap :=
  if f.getConfigMapFail.contains n then .error .other
  else match findBy ConfigMap.name σ.configmaps n with
    | some c => .ok c
    | none => .error .notFound

/-- Read of a deployment by name. -/
def getDeploymentOp (f : Faults) (σ : StoreState) (n : String) : Except StoreErr Deployment :=
  if f.getDeploymentFail.contains n then .error .other
  else match findBy Deployment.name σ.deployments n with
    | some d => .ok d
    | none => .error .notFound

/-- Store write of a secret. -/
def putSecret (σ : StoreState) (s : Secret) : StoreState :=
  ⟨σ.auth, upsertBy Secret.name σ.secrets s, σ.configmaps, σ.deployments⟩

/-- Store write of a configmap. -/
def putConfigMap (σ : StoreState) (c : ConfigMap) : StoreState :=
  ⟨σ.auth, σ.secrets, upsertBy ConfigMap.name σ.configmaps c, σ.deployments⟩

/-- Store write of a deployment. -/
def putDeployment (σ : StoreState) (d : Deployment) : StoreState :=
  ⟨σ.auth, σ.secrets, σ.configmaps, upsertBy Deployment.name σ.deployments d⟩

/-- Regular update of the AuthResource (`r.Update`): replaces the spec; the
status subresource of the stored object is kept. -/
def applyAuthUpdate (σ : StoreState) (given : BasicAuthenticator) : StoreState :=
  match σ.auth with
  | some stored => ⟨some ⟨stored.name, given.spec, stored.status⟩, σ.secrets, σ.configmaps, σ.deployments⟩
  | none => σ

/-- The status-only update path (`r.Status().Update`): the store takes the
status of the given object and keeps the stored spec, even when the given
in-memory copy's spec is stale. -/
def applyStatusUpdate (stored given : BasicAuthenticator) : BasicAuthenticator :=
  ⟨stored.name, stored.spec, given.status⟩

/-- Status-only update of the stored AuthResource. -/
def putAuthStatus (σ : StoreState) (given : BasicAuthenticator) : StoreState :=
  match σ.auth with
  | some stored => ⟨some (applyStatusUpdate stored given), σ.secrets, σ.configmaps, σ.deployments⟩
  | none => σ

/-- Modelled from the spec: `CreateCredentials` is code of this repository
not under src/.  Per §4.2 it generates new credential material and a
CredentialSecret named deterministically from the resource, and per §3 the
secret is owned by the AuthResource when created by the controller.
Credential generation is a black box producing opaque material; here a
deterministic placeholder stands in for it. -/
def CreateCredentials (ba : BasicAuthenticator) : Secret :=
  ⟨ba.name ++ "-credentials", "credential-material-" ++ ba.name, true⟩

/-- Modelled from the spec: `CreateNginxConfigmap` is code of this
repository not under src/.  Per §4.3 the artifact's content is a pure
function of resource spec fields and its name is deterministic; the owner
reference is set afterwards by the reconcile loop. -/
def CreateNginxConfigmap (ba : BasicAuthenticator) : ConfigMap :=
  ⟨ba.name ++ "-nginx-conf", "nginx-conf-" ++ ba.spec.configData, false⟩

/-- Modelled from the spec: `CreateNginxDeployment` is code of this
repository not under src/.  Per §4.4 the full desired workload spec is
derived from the resource spec, the credential name and the config
artifact name; a freshly built object carries no store-populated defaults;
the owner reference is set afterwards by the reconcile loop. -/
def CreateNginxDeployment (ba : BasicAuthenticator) (cmName credName : String) : Deployment :=
  ⟨ba.name ++ "-nginx",
   ⟨"nginx-" ++ ba.spec.configData ++ "-" ++ cmName ++ "-" ++ credName
      ++ "-" ++ toString ba.spec.replicas,
    none, "", true⟩,
   0, false⟩

/-- Adding the proxy container to a workload's pod template: only the
`hasProxy` marker of the spec changes; ownership is untouched. -/
def injectProxy (d : Deployment) : Deployment :=
  ⟨d.name, ⟨d.spec.derived, d.spec.defaulted, d.spec.podLabels, true⟩, d.readyReplicas, d.hasOwner⟩

/-- Modelled from the spec: `Injector` is code of this repository not
under src/.  Per §4.5 it enumerates workloads matching the resource's
selection criteria, and for each whose pod template does not already
contain the proxy container returns a copy with the proxy container added;
no owner relation is set on the targets.  The caller persists each
returned workload. -/
def Injector (ba : BasicAuthenticator) (σ : StoreState) : List Deployment :=
  (σ.deployments.filter
      (fun d => d.spec.podLabels == ba.spec.selector && !d.spec.hasProxy)).map injectProxy

/-- `ctrl.SetControllerReference` on the configmap. -/
def setCMOwner (c : ConfigMap) : ConfigMap := ⟨c.name, c.data, true⟩

/-- `ctrl.SetControllerReference` on the deployment. -/
def setDeployOwner (d : Deployment) : Deployment := ⟨d.name, d.spec, d.readyReplicas, true⟩

/-- Setting `basicAuthenticator.Spec.CredentialsSecretRef` on the in-memory
copy (controller_go line 83). -/
def setCredRef (ba : BasicAuthenticator) (n : String) : BasicAuthenticator :=
  ⟨ba.name, ⟨n, ba.spec.type, ba.spec.selector, ba.spec.configData, ba.spec.replicas⟩, ba.status⟩

/-- Intermediate result of one phase of the reconcile: either an early
return (result, error, state, ops) or the continuation payload. -/
inductive Step (α : Type) where
  | done (result : CtrlResult) (error : Option StoreErr) (state : StoreState) (ops : List Op) : Step α
  | next (payload : α) (state : StoreState) (ops : List Op) : Step α

/-- State carried by a phase result. -/
def Step.stepState {α : Type} : Step α → StoreState
  | .done _ _ s _ => s
  | .next _ s _ => s

/-- Trace carried by a phase result. -/
def Step.stepOps {α : Type} : Step α → List Op
  | .done _ _ _ ops => ops
  | .next _ _ ops => ops

/-- Credential phase, controller_go lines 67-104.  With an empty
`credentialsSecretRef` the candidate secret is looked up; on NotFound it
is created, the ref is set and the resource updated and refetched, and the
sequence continues; on any other lookup outcome the invocation returns a
requeue with a nil error.  With a non-empty ref the referenced secret is
fetched and any fetch error is returned. -/
def credentialPhase (f : Faults) (σ : StoreState) (ba : BasicAuthenticator) :
    Step (BasicAuthenticator × String) :=
  let credentialName := ba.spec.credentialsSecretRef
  if credentialName = "" then
    let newSecret := CreateCredentials ba
    match getSecretOp f σ newSecret.name with
    | .error .notFound =>
      if f.createFail.contains newSecret.name then
        .done ⟨true⟩ (some .other) σ [.getSecret newSecret.name]
      else
        let σ1 := putSecret σ newSecret
        let ba1 := setCredRef ba newSecret.name
        if f.updateFail.contains ba1.name then
          .done ⟨false⟩ (some .other) σ1 [.getSecret newSecret.name, .createSecret newSecret]
        else
          let σ2 := applyAuthUpdate σ1 ba1
          match getAuthOp f σ2 with
          | .error e =>
            .done ⟨false⟩ (some e) σ2
              [.getSecret newSecret.name, .createSecret newSecret, .updateAuth ba1]
          | .ok ba2 =>
            .next (ba2, newSecret.name) σ2
              [.getSecret newSecret.name, .createSecret newSecret, .updateAuth ba1, .getAuth]
    | _ => .done ⟨true⟩ none σ [.getSecret newSecret.name]
  else
    match getSecretOp f σ credentialName with
    | .ok _ => .next (ba, credentialName) σ [.getSecret credentialName]
    | .error e => .done ⟨false⟩ (some e) σ [.getSecret credentialName]

/-- Config phase, controller_go lines 106-133.  On NotFound the owned
configmap is created and the invocation requeues; on another fetch error
the error is returned; when present and the data differs the stored
configmap's data is replaced and updated, and in either case the sequence
continues with the found configmap. -/
def configPhase (f : Faults) (σ : StoreState) (ba : BasicAuthenticator) : Step ConfigMap :=
  let nginxConfig := CreateNginxConfigmap ba
  match getConfigMapOp f σ nginxConfig.name with
  | .error .notFound =>
    let owned := setCMOwner nginxConfig
    if f.createFail.contains owned.name then
      .done ⟨true⟩ (some .other) σ [.getConfigMap nginxConfig.name]
    else
      .done ⟨true⟩ none (putConfigMap σ owned)
        [.getConfigMap nginxConfig.name, .createConfigMap owned]
  | .error .other => .done ⟨false⟩ (some .other) σ [.getConfigMap nginxConfig.name]
  | .ok found =>
    if nginxConfig.data ≠ found.data then
      let found1 : ConfigMap := ⟨found.name, nginxConfig.data, found.hasOwner⟩
      if f.updateFail.contains found1.name then
        .done ⟨false⟩ (some .other) σ [.getConfigMap nginxConfig.name]
      else
        .next found1 (putConfigMap σ found1)
          [.getConfigMap nginxConfig.name, .updateConfigMap found1]
    else
      .next found σ [.getConfigMap nginxConfig.name]

/-- Persisting the workloads returned by the injector, controller_go lines
143-149: each is updated in turn and the first failure aborts with the
error; afterwards the invocation returns success with no status write. -/
def updateLoop (f : Faults) : StoreState → List Deployment → List Op → RecOutcome
  | σ, [], ops => ⟨⟨false⟩, none, σ, ops⟩
  | σ, d :: rest, ops =>
    if f.updateFail.contains d.name then ⟨⟨false⟩, some .other, σ, ops⟩
    else updateLoop f (putDeployment σ d) rest (ops ++ [.updateDeployment d])

/-- Tail of the standalone branch, controller_go lines 184-191: the ready
replica count observed on the fetched deployment is written through the
status-only update path, unconditionally. -/
def standaloneFinish (f : Faults) (σ : StoreState) (ba : BasicAuthenticator)
    (found : Deployment) (ops : List Op) : RecOutcome :=
  let ba1 : BasicAuthenticator := ⟨ba.name, ba.spec, ⟨found.readyReplicas⟩⟩
  if f.statusUpdateFail then ⟨⟨false⟩, some .other, σ, ops⟩
  else ⟨⟨false⟩, none, putAuthStatus σ ba1, ops ++ [.updateStatus ba1]⟩

/-- Workload phase, controller_go lines 135-196: sidecar injection, or the
standalone deployment create/update followed by the status write. -/
def workloadPhase (f : Faults) (σ : StoreState) (ba : BasicAuthenticator)
    (cmName credName : String) : RecOutcome :=
  if ba.spec.type = "sidecar" then
    if f.injectFail then ⟨⟨false⟩, some .other, σ, [.listDeployments]⟩
    else updateLoop f σ (Injector ba σ) [.listDeployments]
  else
    let newDeployment := CreateNginxDeployment ba cmName credName
    match getDeploymentOp f σ newDeployment.name with
    | .error .notFound =>
      let owned := setDeployOwner newDeployment
      if f.createFail.contains owned.name then
        ⟨⟨true⟩, some .other, σ, [.getDeployment newDeployment.name]⟩
      else
        ⟨⟨true⟩, none, putDeployment σ owned,
         [.getDeployment newDeployment.name, .createDeployment owned]⟩
    | .error .other => ⟨⟨false⟩, some .other, σ, [.getDeployment newDeployment.name]⟩
    | .ok found =>
      if newDeployment.spec ≠ found.spec then
        let found1 : Deployment := ⟨found.name, newDeployment.spec, found.readyReplicas, found.hasOwner⟩
        if f.updateFail.contains found1.name then
          ⟨⟨false⟩, some .other, σ, [.getDeployment newDeployment.name]⟩
        else
          standaloneFinish f (putDeployment σ found1) ba found
            [.getDeployment newDeployment.name, .updateDeployment found1]
      else
        standaloneFinish f σ ba found [.getDeployment newDeployment.name]

/-- The reconcile loop, controller_go lines 47-197: fetch (absence is
terminal success), refetch, credential phase, config phase, workload
phase. -/
def Reconcile (f : Faults) (σ0 : StoreState) : RecOutcome :=
  match getAuthOp f σ0 with
  | .error .notFound => ⟨⟨false⟩, none, σ0, [.getAuth]⟩
  | .error .other => ⟨⟨false⟩, some .other, σ0, [.getAuth]⟩
  | .ok _ =>
    match getAuthOp f σ0 with
    | .error e => ⟨⟨false⟩, some e, σ0, [.getAuth, .getAuth]⟩
    | .ok ba =>
      match credentialPhase f σ0 ba with
      | .done r e σ ops => ⟨r, e, σ, .getAuth :: .getAuth :: ops⟩
      | .next (ba1, credentialName) σ1 ops1 =>
        match configPhase f σ1 ba1 with
        | .done r e σ ops => ⟨r, e, σ, .getAuth :: .getAuth :: ops1 ++ ops⟩
        | .next foundCM σ2 ops2 =>
          let o := workloadPhase f σ2 ba1 foundCM.name credentialName
          ⟨o.result, o.error, o.state, .getAuth :: .getAuth :: ops1 ++ ops2 ++ o.ops⟩

/-- Whether a trace entry is a create. -/
def Op.isCreate : Op → Bool
  | .createSecret _ => true
  | .createConfigMap _ => true
  | .createDeployment _ => true
  | _ => false

/-- Whether a trace entry is the status-subresource write. -/
def Op.isStatusWrite : Op → Bool
  | .updateStatus _ => true
  | _ => false

/-- Whether a trace entry is a deployment update. -/
def Op.isDeploymentUpdate : Op → Bool
  | .updateDeployment _ => true
  | _ => false

/-- Whether a trace entry creates the credential secret or rewrites the
AuthResource (the only operation that could change
`credentialsSecretRef`); the code has no secret-update call at all. -/
def Op.touchesCredential : Op → Bool
  | .createSecret _ => true
  | .updateAuth _ => true
  | _ => false

/-- Whether a create entry carries an owner reference on the created
object; non-create entries pass vacuously. -/
def Op.createCarriesOwner : Op → Bool
  | .createSecret s => s.hasOwner
  | .createConfigMap c => c.hasOwner
  | .createDeployment d => d.hasOwner
  | _ => true

/-- External actor raising the observed readiness of a stored deployment
(the store updating workload status between reconciles). -/
def setReadiness (σ : StoreState) (n : String) (k : Int) : StoreState :=
  ⟨σ.auth, σ.secrets, σ.configmaps,
   σ.deployments.map (fun d => if d.name = n then ⟨d.name, d.spec, k, d.hasOwner⟩ else d)⟩

/-- Scenario resource: standalone mode, empty `credentialsSecretRef`. -/
def scenarioAuth : BasicAuthenticator := ⟨"app", ⟨"", "standalone", "", "cfg", 2⟩, ⟨0⟩⟩

/-- Scenario start state: the resource exists, no dependents yet. -/
def scenarioState : StoreState := ⟨some scenarioAuth, [], [], []⟩

/-- First reconcile of the scenario. -/
def run1 : RecOutcome := Reconcile noFaults scenarioState

/-- Second reconcile of the scenario. -/
def run2 : RecOutcome := Reconcile noFaults run1.state

/-- The deployment becomes ready with 3 replicas between the second and
third reconcile. -/
def run3 : RecOutcome := Reconcile noFaults (setReadiness run2.state "app-nginx" 3)

/-- Converged standalone store state: third reconcile's result. -/
def convergedState : StoreState := run3.state

/-- Resource whose `credentialsSecretRef` is already set. -/
def refSetAuth : BasicAuthenticator :=
  ⟨"app", ⟨"app-credentials", "standalone", "", "cfg", 2⟩, ⟨0⟩⟩

/-- The referenced credential secret. -/
def refSecret : Secret := ⟨"app-credentials", "m", true⟩

/-- The matching configmap as the controller would have created it. -/
def matchingCM : ConfigMap := ⟨"app-nginx-conf", "nginx-conf-cfg", true⟩

/-- A stored deployment that differs from the freshly derived one only in
the store-populated `defaulted` field. -/
def defaultedDep : Deployment :=
  ⟨"app-nginx",
   ⟨"nginx-cfg-app-nginx-conf-app-credentials-2", some "store-default", "", true⟩,
   3, true⟩

/-- Store state for the store-defaulted-field scenario. -/
def defaultedState : StoreState :=
  ⟨some refSetAuth, [refSecret], [matchingCM], [defaultedDep]⟩

/-- Resource referencing a secret that is absent from the store. -/
def danglingRefAuth : BasicAuthenticator :=
  ⟨"app", ⟨"ext-cred", "standalone", "", "cfg", 2⟩, ⟨0⟩⟩

/-- Store state whose referenced secret is absent. -/
def danglingRefState : StoreState := ⟨some danglingRefAuth, [], [], []⟩

/-- Sidecar-mode resource selecting workloads labelled `web`. -/
def sidecarAuth : BasicAuthenticator :=
  ⟨"app", ⟨"ext-cred", "sidecar", "web", "cfg", 2⟩, ⟨0⟩⟩

/-- Two matching target workloads, neither injected yet, not owned. -/
def target1 : Deployment := ⟨"w1", ⟨"w1spec", none, "web", false⟩, 1, false⟩

/-- Second target workload. -/
def target2 : Deployment := ⟨"w2", ⟨"w2spec", none, "web", false⟩, 1, false⟩

/-- Store state for the sidecar scenario: referenced secret and matching
configmap present, two uninjected targets. -/
def sidecarState : StoreState :=
  ⟨some sidecarAuth, [⟨"ext-cred", "m", false⟩], [matchingCM], [target1, target2]⟩

/-- Store state with the resource absent (deleted). -/
def deletedState : StoreState := ⟨none, [], [], []⟩

/-- Empty-ref resource whose deterministically named candidate secret
already exists in the store. -/
def candidateExistsState : StoreState :=
  ⟨some scenarioAuth, [⟨"app-credentials", "old", false⟩], [], []⟩

/-- Faults making the candidate-secret lookup fail transiently. -/
def lookupFaults : Faults := ⟨false, ["app-credentials"], [], [], [], [], false, false⟩

/-! Helper lemmas about the store primitives and the phases. -/

theorem findBy_name {α : Type} (nameOf : α → String) (l : List α) (n : String) (v : α)
    (h : findBy nameOf l n = some v) : nameOf v = n := by
  induction l with
  | nil => simp [findBy] at h
  | cons e t ih =>
    by_cases he : nameOf e = n
    · simp [findBy, he] at h
      rw [← h]; exact he
    · simp [findBy, he] at h
      exact ih h

theorem getSecretOp_ok (f : Faults) (σ : StoreState) (n : String) (s : Secret)
    (h : getSecretOp f σ n = .ok s) : s.name = n := by
  unfold getSecretOp at h
  split at h
  · exact absurd h (by simp)
  · split at h
    · rename_i s' hfind
      injection h with h
      rw [← h]
      exact findBy_name Secret.name σ.secrets n s' hfind
    · exact absurd h (by simp)

theorem getConfigMapOp_ok (f : Faults) (σ : StoreState) (n : String) (c : ConfigMap)
    (h : getConfigMapOp f σ n = .ok c) : c.name = n := by
  unfold getConfigMapOp at h
  split at h
  · exact absurd h (by simp)
  · split at h
    · rename_i c' hfind
      injection h with h
      rw [← h]
      exact findBy_name ConfigMap.name σ.configmaps n c' hfind
    · exact absurd h (by simp)

theorem getDeploymentOp_ok (f : Faults) (σ : StoreState) (n : String) (d : Deployment)
    (h : getDeploymentOp f σ n = .ok d) : d.name = n := by
  unfold getDeploymentOp at h
  split at h
  · exact absurd h (by simp)
  · split at h
    · rename_i d' hfind
      injection h with h
      rw [← h]
      exact findBy_name Deployment.name σ.deployments n d' hfind
    · exact absurd h (by simp)

theorem credentialPhase_refSet_eq (f : Faults) (σ : StoreState) (ba : BasicAuthenticator)
    (h : ¬ ba.spec.credentialsSecretRef = "") :
    credentialPhase f σ ba =
      match getSecretOp f σ ba.spec.credentialsSecretRef with
      | .ok _ => .next (ba, ba.spec.credentialsSecretRef) σ
          [.getSecret ba.spec.credentialsSecretRef]
      | .error e => .done ⟨false⟩ (some e) σ [.getSecret ba.spec.credentialsSecretRef] := by
  simp only [credentialPhase]
  rw [if_neg h]

theorem updateLoop_state_frame (f : Faults) (l : List Deployment) :
    ∀ σ ops, (updateLoop f σ l ops).state.auth = σ.auth ∧
      (updateLoop f σ l ops).state.secrets = σ.secrets ∧
      (updateLoop f σ l ops).state.configmaps = σ.configmaps := by
  induction l with
  | nil => intro σ ops; simp [updateLoop]
  | cons d rest ih =>
    intro σ ops
    by_cases hf : d.name ∈ f.updateFail
    · simp [updateLoop, hf]
    · rcases ih (putDeployment σ d) (ops ++ [.updateDeployment d]) with ⟨h1, h2, h3⟩
      simp [putDeployment] at h1 h2 h3
      simp [updateLoop, hf, putDeployment, h1, h2, h3]

theorem updateLoop_ops_pred (f : Faults) (p : Op → Prop)
    (hud : ∀ d, p (.updateDeployment d)) (l : List Deployment) :
    ∀ σ ops, (∀ op ∈ ops, p op) → ∀ op ∈ (updateLoop f σ l ops).ops, p op := by
  induction l with
  | nil => intro σ ops h0; simpa [updateLoop] using h0
  | cons d rest ih =>
    intro σ ops h0
    by_cases hf : d.name ∈ f.updateFail
    · simpa [updateLoop, hf] using h0
    · intro op hop
      refine ih (putDeployment σ d) (ops ++ [.updateDeployment d]) ?_ op ?_
      · intro op' hop'
        rcases List.mem_append.mp hop' with hm | hm
        · exact h0 op' hm
        · simp at hm; rw [hm]; exact hud d
      · simpa [updateLoop, hf] using hop

theorem standaloneFinish_state_frame (f : Faults) (σ : StoreState) (ba : BasicAuthenticator)
    (found : Deployment) (ops : List Op) :
    (standaloneFinish f σ ba found ops).state.secrets = σ.secrets ∧
    (standaloneFinish f σ ba found ops).state.configmaps = σ.configmaps ∧
    (standaloneFinish f σ ba found ops).state.deployments = σ.deployments ∧
    ((standaloneFinish f σ ba found ops).state.auth).map (fun a => a.spec)
      = σ.auth.map (fun a => a.spec) := by
  by_cases hf : f.statusUpdateFail = true
  · simp [standaloneFinish, hf]
  · cases hσ : σ.auth with
    | none => simp [standaloneFinish, hf, putAuthStatus, hσ]
    | some stored => simp [standaloneFinish, hf, putAuthStatus, hσ, applyStatusUpdate]

theorem standaloneFinish_ops_pred (f : Faults) (σ : StoreState) (ba : BasicAuthenticator)
    (found : Deployment) (ops : List Op) (p : Op → Prop)
    (h0 : ∀ op ∈ ops, p op) (hus : ∀ a, p (.updateStatus a)) :
    ∀ op ∈ (standaloneFinish f σ ba found ops).ops, p op := by
  by_cases hf : f.statusUpdateFail = true
  · simpa [standaloneFinish, hf] using h0
  · intro op hop
    simp [standaloneFinish, hf] at hop
    rcases hop with hm | hm
    · exact h0 op hm
    · rw [hm]; exact hus _

theorem configPhase_state_frame (f : Faults) (σ : StoreState) (ba : BasicAuthenticator) :
    (configPhase f σ ba).stepState.auth = σ.auth ∧
    (configPhase f σ ba).stepState.secrets = σ.secrets ∧
    (configPhase f σ ba).stepState.deployments = σ.deployments := by
  simp only [configPhase]
  repeat' split
  all_goals simp [Step.stepState, putConfigMap]

theorem configPhase_ops_pred (f : Faults) (σ : StoreState) (ba : BasicAuthenticator)
    (p : Op → Prop)
    (hget : ∀ n, p (.getConfigMap n))
    (hcr : ∀ c, c.hasOwner = true → p (.createConfigMap c))
    (hup : ∀ c, p (.updateConfigMap c)) :
    ∀ op ∈ (configPhase f σ ba).stepOps, p op := by
  simp only [configPhase]
  repeat' split
  all_goals intro op hop
  all_goals simp [Step.stepOps] at hop
  all_goals first
    | (rw [hop]; exact hget _)
    | (rcases hop with hm | hm
       · rw [hm]; exact hget _
       · rw [hm]; first | exact hcr _ rfl | exact hup _)

theorem credentialPhase_ops_pred (f : Faults) (σ : StoreState) (ba : BasicAuthenticator)
    (p : Op → Prop)
    (hgs : ∀ n, p (.getSecret n)) (hga : p .getAuth)
    (hcs : ∀ s, s.hasOwner = true → p (.createSecret s))
    (hua : ∀ a, p (.updateAuth a)) :
    ∀ op ∈ (credentialPhase f σ ba).stepOps, p op := by
  simp only [credentialPhase]
  repeat' split
  all_goals intro op hop
  all_goals simp [Step.stepOps] at hop
  all_goals first
    | (rw [hop]; exact hgs _)
    | (rcases hop with hm | hm | hm | hm
       · rw [hm]; exact hgs _
       · rw [hm]; exact hcs _ rfl
       · rw [hm]; exact hua _
       · rw [hm]; exact hga)
    | (rcases hop with hm | hm | hm
       · rw [hm]; exact hgs _
       · rw [hm]; exact hcs _ rfl
       · rw [hm]; exact hua _)
    | (rcases hop with hm | hm
       · rw [hm]; exact hgs _
       · rw [hm]; exact hcs _ rfl)

theorem workloadPhase_state_frame (f : Faults) (σ : StoreState) (ba : BasicAuthenticator)
    (cm cred : String) :
    (workloadPhase f σ ba cm cred).state.secrets = σ.secrets ∧
    (workloadPhase f σ ba cm cred).state.configmaps = σ.configmaps ∧
    ((workloadPhase f σ ba cm cred).state.auth).map (fun a => a.spec)
      = σ.auth.map (fun a => a.spec) := by
  simp only [workloadPhase]
  split
  · split
    · simp
    · rcases updateLoop_state_frame f (Injector ba σ) σ [Op.listDeployments] with ⟨h1, h2, h3⟩
      simp [h1, h2, h3]
  · split
    · split
      · simp
      · simp [putDeployment]
    · simp
    · rename_i found heq
      split
      · split
        · simp
        · rcases standaloneFinish_state_frame f
            (putDeployment σ ⟨found.name, (CreateNginxDeployment ba cm cred).spec,
              found.readyReplicas, found.hasOwner⟩) ba found
            [Op.getDeployment (CreateNginxDeployment ba cm cred).name,
             Op.updateDeployment ⟨found.name, (CreateNginxDeployment ba cm cred).spec,
               found.readyReplicas, found.hasOwner⟩] with ⟨h1, h2, h3, h4⟩
          simp [putDeployment] at h1 h2 h4
          exact ⟨h1, h2, h4⟩
      · rcases standaloneFinish_state_frame f σ ba found
          [Op.getDeployment (CreateNginxDeployment ba cm cred).name] with ⟨h1, h2, h3, h4⟩
        exact ⟨h1, h2, h4⟩

theorem workloadPhase_ops_pred (f : Faults) (σ : StoreState) (ba : BasicAuthenticator)
    (cm cred : String) (p : Op → Prop)
    (hl : p .listDeployments) (hgd : ∀ n, p (.getDeployment n))
    (hcd : ∀ d, d.hasOwner = true → p (.createDeployment d))
    (hud : ∀ d, p (.updateDeployment d)) (hus : ∀ a, p (.updateStatus a)) :
    ∀ op ∈ (workloadPhase f σ ba cm cred).ops, p op := by
  simp only [workloadPhase]
  repeat' split
  all_goals first
    | (intro op hop; simp at hop; rw [hop]; first | exact hl | exact hgd _)
    | (exact updateLoop_ops_pred f p hud (Injector ba σ) σ [Op.listDeployments]
        (by intro op hop; simp at hop; rw [hop]; exact hl))
    | (intro op hop; simp at hop
       rcases hop with hm | hm
       · rw [hm]; exact hgd _
       · rw [hm]; exact hcd _ rfl)
    | (refine standaloneFinish_ops_pred _ _ _ _ _ p ?_ hus
       intro op hop; simp at hop
       rcases hop with hm | hm
       · rw [hm]; exact hgd _
       · rw [hm]; exact hud _)
    | (refine standaloneFinish_ops_pred _ _ _ _ _ p ?_ hus
       intro op hop; simp at hop; rw [hop]; exact hgd _)

theorem workloadPhase_sidecar_no_status (f : Faults) (σ : StoreState)
    (ba : BasicAuthenticator) (cm cred : String) (hty : ba.spec.type = "sidecar") :
    ∀ op ∈ (workloadPhase f σ ba cm cred).ops, op.isStatusWrite = false := by
  simp only [workloadPhase]
  rw [if_pos hty]
  split
  · intro op hop; simp at hop; rw [hop]; rfl
  · exact updateLoop_ops_pred f (fun op => op.isStatusWrite = false) (fun d => rfl)
      (Injector ba σ) σ [Op.listDeployments]
      (by intro op hop; simp at hop; rw [hop]; rfl)

theorem getAuthOp_okAuth (f : Faults) (σ : StoreState) (ba : BasicAuthenticator)
    (h : getAuthOp f σ = .ok ba) : σ.auth = some ba := by
  unfold getAuthOp at h
  split at h
  · exact absurd h (by simp)
  · split at h
    · rename_i a ha
      injection h with h
      rw [ha, h]
    · exact absurd h (by simp)

theorem credentialPhase_next_type (f : Faults) (σ : StoreState) (ba ba1 : BasicAuthenticator)
    (cred : String) (σ1 : StoreState) (ops1 : List Op)
    (hσ : σ.auth = some ba)
    (h : credentialPhase f σ ba = .next (ba1, cred) σ1 ops1) :
    ba1.spec.type = ba.spec.type := by
  by_cases h0 : ba.spec.credentialsSecretRef = ""
  · simp only [credentialPhase] at h
    rw [if_pos h0] at h
    repeat' split at h
    all_goals simp only [Step.next.injEq, Prod.mk.injEq, reduceCtorEq] at h
    rename_i ba2 hga
    obtain ⟨⟨hba1, -⟩, -, -⟩ := h
    unfold getAuthOp at hga
    split at hga
    · exact absurd hga (by simp)
    · rw [show (applyAuthUpdate (putSecret σ (CreateCredentials ba))
            (setCredRef ba (CreateCredentials ba).name)).auth
          = some ⟨ba.name, (setCredRef ba (CreateCredentials ba).name).spec, ba.status⟩ from by
          simp [applyAuthUpdate, putSecret, hσ]] at hga
      simp only [Except.ok.injEq] at hga
      rw [← hba1, ← hga]
      rfl
  · rw [credentialPhase_refSet_eq f σ ba h0] at h
    split at h
    · simp only [Step.next.injEq, Prod.mk.injEq] at h
      obtain ⟨⟨hba1, -⟩, -, -⟩ := h
      rw [← hba1]
    · exact absurd h (by simp)

theorem Reconcile_ops_pred (f : Faults) (σ : StoreState) (p : Op → Prop)
    (hga : p .getAuth)
    (hc : ∀ ba, getAuthOp f σ = .ok ba → ∀ op ∈ (credentialPhase f σ ba).stepOps, p op)
    (hcfg : ∀ σ1 ba1, ∀ op ∈ (configPhase f σ1 ba1).stepOps, p op)
    (hw : ∀ σ2 ba1 cm cred, ∀ op ∈ (workloadPhase f σ2 ba1 cm cred).ops, p op) :
    ∀ op ∈ (Reconcile f σ).ops, p op := by
  unfold Reconcile
  split
  · intro op hop; simp at hop; rw [hop]; exact hga
  · intro op hop; simp at hop; rw [hop]; exact hga
  · split
    · intro op hop; simp at hop; rw [hop]; exact hga
    · rename_i ba hok
      split
      · rename_i r e σ' ops' heq
        have hstep : (credentialPhase f σ ba).stepOps = ops' := by rw [heq]; rfl
        intro op hop; simp at hop
        rcases hop with hm | hm
        · rw [hm]; exact hga
        · exact hc ba hok op (by rw [hstep]; exact hm)
      · rename_i ba1 cred σ1 ops1 heq
        have hstep : (credentialPhase f σ ba).stepOps = ops1 := by rw [heq]; rfl
        split
        · rename_i r e σ' ops' heq2
          have hstep2 : (configPhase f σ1 ba1).stepOps = ops' := by rw [heq2]; rfl
          intro op hop; simp at hop
          rcases hop with hm | hm | hm
          · rw [hm]; exact hga
          · exact hc ba hok op (by rw [hstep]; exact hm)
          · exact hcfg σ1 ba1 op (by rw [hstep2]; exact hm)
        · rename_i cmF σ2 ops2 heq2
          have hstep2 : (configPhase f σ1 ba1).stepOps = ops2 := by rw [heq2]; rfl
          intro op hop; simp at hop
          rcases hop with hm | hm | hm | hm
          · rw [hm]; exact hga
          · exact hc ba hok op (by rw [hstep]; exact hm)
          · exact hcfg σ1 ba1 op (by rw [hstep2]; exact hm)
          · exact hw σ2 ba1 cmF.name cred op hm

theorem Reconcile_state_refSet (f : Faults) (σ : StoreState) (res : BasicAuthenticator)
    (hσ : σ.auth = some res) (h : ¬ res.spec.credentialsSecretRef = "") :
    (Reconcile f σ).state.secrets = σ.secrets ∧
    ((Reconcile f σ).state.auth).map (fun a => a.spec) = σ.auth.map (fun a => a.spec) := by
  unfold Reconcile
  split
  · exact ⟨rfl, rfl⟩
  · exact ⟨rfl, rfl⟩
  · split
    · exact ⟨rfl, rfl⟩
    · rename_i ba hok
      have hba : ba = res := by
        have := getAuthOp_okAuth f σ ba hok
        rw [hσ] at this
        injection this with this
        exact this.symm
      subst hba
      split
      · rename_i r e σ' ops' heq
        rw [credentialPhase_refSet_eq f σ ba h] at heq
        split at heq
        · exact absurd heq (by simp)
        · injection heq with hr he hs ho
          rw [← hs]
          exact ⟨rfl, rfl⟩
      · rename_i ba1 cred σ1 ops1 heq
        rw [credentialPhase_refSet_eq f σ ba h] at heq
        have hσ1 : σ1 = σ := by
          split at heq
          · injection heq with hp hs ho
            exact hs.symm
          · exact absurd heq (by simp)
        subst hσ1
        split
        · rename_i r e σ' ops' heq2
          rcases configPhase_state_frame f σ1 ba1 with ⟨h1, h2, h3⟩
          rw [heq2] at h1 h2
          simp [Step.stepState] at h1 h2
          rw [h2, h1]
          exact ⟨rfl, rfl⟩
        · rename_i cmF σ2 ops2 heq2
          rcases configPhase_state_frame f σ1 ba1 with ⟨h1, h2, h3⟩
          rw [heq2] at h1 h2
          simp [Step.stepState] at h1 h2
          rcases workloadPhase_state_frame f σ2 ba1 cmF.name cred with ⟨w1, w2, w3⟩
          constructor
          · simp only []
            rw [w1, h2]
          · simp only []
            rw [w3, h1]

theorem Reconcile_sidecar_no_status (f : Faults) (σ : StoreState) (res : BasicAuthenticator)
    (hσ : σ.auth = some res) (hty : res.spec.type = "sidecar") :
    ∀ op ∈ (Reconcile f σ).ops, op.isStatusWrite = false := by
  unfold Reconcile
  split
  · intro op hop; simp at hop; rw [hop]; rfl
  · intro op hop; simp at hop; rw [hop]; rfl
  · split
    · intro op hop; simp at hop; rw [hop]; rfl
    · rename_i ba hok
      have hba : ba = res := by
        have h2 := getAuthOp_okAuth f σ ba hok
        rw [hσ] at h2
        injection h2 with h2
        exact h2.symm
      subst hba
      split
      · rename_i r e σ' ops' heq
        have hstep : (credentialPhase f σ ba).stepOps = ops' := by rw [heq]; rfl
        intro op hop; simp at hop
        rcases hop with hm | hm
        · rw [hm]; rfl
        · exact credentialPhase_ops_pred f σ ba (fun op => op.isStatusWrite = false)
            (fun n => rfl) rfl (fun s hs => rfl) (fun a => rfl) op (by rw [hstep]; exact hm)
      · rename_i ba1 cred σ1 ops1 heq
        have hstep : (credentialPhase f σ ba).stepOps = ops1 := by rw [heq]; rfl
        have hty1 : ba1.spec.type = "sidecar" := by
          rw [credentialPhase_next_type f σ ba ba1 cred σ1 ops1 hσ heq, hty]
        split
        · rename_i r e σ' ops' heq2
          have hstep2 : (configPhase f σ1 ba1).stepOps = ops' := by rw [heq2]; rfl
          intro op hop; simp at hop
          rcases hop with hm | hm | hm
          · rw [hm]; rfl
          · exact credentialPhase_ops_pred f σ ba (fun op => op.isStatusWrite = false)
              (fun n => rfl) rfl (fun s hs => rfl) (fun a => rfl) op (by rw [hstep]; exact hm)
          · exact configPhase_ops_pred f σ1 ba1 (fun op => op.isStatusWrite = false)
              (fun n => rfl) (fun c hc => rfl) (fun c => rfl) op (by rw [hstep2]; exact hm)
        · rename_i cmF σ2 ops2 heq2
          have hstep2 : (configPhase f σ1 ba1).stepOps = ops2 := by rw [heq2]; rfl
          intro op hop; simp at hop
          rcases hop with hm | hm | hm | hm
          · rw [hm]; rfl
          · exact credentialPhase_ops_pred f σ ba (fun op => op.isStatusWrite = false)
              (fun n => rfl) rfl (fun s hs => rfl) (fun a => rfl) op (by rw [hstep]; exact hm)
          · exact configPhase_ops_pred f σ1 ba1 (fun op => op.isStatusWrite = false)
              (fun n => rfl) (fun c hc => rfl) (fun c => rfl) op (by rw [hstep2]; exact hm)
          · exact workloadPhase_sidecar_no_status f σ2 ba1 cmF.name cred hty1 op hm

theorem standaloneFinish_ops_sub (f : Faults) (σ : StoreState) (ba : BasicAuthenticator)
    (found : Deployment) (ops : List Op) :
    ∀ op ∈ ops, op ∈ (standaloneFinish f σ ba found ops).ops := by
  intro op hop
  by_cases hf : f.statusUpdateFail = true
  · simpa [standaloneFinish, hf] using hop
  · simp [standaloneFinish, hf]
    exact Or.inl hop

theorem Reconcile_ops_workload_sub (f : Faults) (σ σ1 σ2 : StoreState)
    (res ba1 : BasicAuthenticator) (cred : String) (cmF : ConfigMap)
    (ops1 ops2 : List Op)
    (hok : getAuthOp f σ = .ok res)
    (hcp : credentialPhase f σ res = .next (ba1, cred) σ1 ops1)
    (hcf : configPhase f σ1 ba1 = .next cmF σ2 ops2) :
    ∀ op ∈ (workloadPhase f σ2 ba1 cmF.name cred).ops, op ∈ (Reconcile f σ).ops := by
  intro op hop
  unfold Reconcile
  simp only [hok, hcp, hcf]
  simp only [List.mem_cons, List.mem_append]
  tauto

/-! Claim theorems. -/

/-- C1, counterexample: on a standalone resource with empty
`credentialsSecretRef` against an empty store, the first reconcile does
not return right after creating the credential secret — the same
invocation also creates the config artifact (two creates in one
invocation), so the claim that every create requeues without executing
any later step, and in particular that the first reconcile creates only
the secret, is false on the code. -/
theorem C1_create_requeues_counterexample :
    (Reconcile noFaults scenarioState).result.requeue = true ∧
    ((Reconcile noFaults scenarioState).ops.filter Op.isCreate).length = 2 ∧
    Op.createSecret (CreateCredentials scenarioAuth) ∈ (Reconcile noFaults scenarioState).ops ∧
    Op.createConfigMap ⟨"app-nginx-conf", "nginx-conf-cfg", true⟩
      ∈ (Reconcile noFaults scenarioState).ops := by decide

/-- C1, amended: the config-artifact and deployment creates requeue
immediately, but the credential-secret create proceeds within the same
invocation to set `credentialsSecretRef`, update the resource, and run
the config step.  The standalone scenario therefore converges in three
reconciles, not four: the first creates the secret and the config
artifact and requeues, the second creates the deployment and requeues,
and the third observes deployment readiness 3 and writes
`status.readyReplicas = 3`, performing no other write. -/
theorem C1_create_requeues_amended :
    run1.result.requeue = true ∧ run1.error = none ∧
    run1.ops.filter Op.isCreate =
      [Op.createSecret (CreateCredentials scenarioAuth),
       Op.createConfigMap ⟨"app-nginx-conf", "nginx-conf-cfg", true⟩] ∧
    run2.result.requeue = true ∧ run2.error = none ∧
    run2.ops.filter Op.isWrite =
      [Op.createDeployment ⟨"app-nginx",
        ⟨"nginx-cfg-app-nginx-conf-app-credentials-2", none, "", true⟩, 0, true⟩] ∧
    run3.result.requeue = false ∧ run3.error = none ∧
    run3.ops.filter Op.isWrite =
      [Op.updateStatus ⟨"app", ⟨"app-credentials", "standalone", "", "cfg", 2⟩, ⟨3⟩⟩] ∧
    (run3.state.auth).map (fun a => a.status.readyReplicas) = some 3 := by decide

/-- C2: when `credentialsSecretRef` is non-empty at the start of an
invocation, no execution path of the reconcile writes any secret or
updates the resource spec: the secrets store is unchanged, the stored
reference is unchanged, and the trace contains no credential-secret
create and no resource spec update (the code has no secret-update call at
all). -/
theorem C2_credential_stability (f : Faults) (σ : StoreState) (res : BasicAuthenticator)
    (hσ : σ.auth = some res) (h : ¬ res.spec.credentialsSecretRef = "") :
    (Reconcile f σ).state.secrets = σ.secrets ∧
    ((Reconcile f σ).state.auth).map (fun a => a.spec.credentialsSecretRef)
      = some res.spec.credentialsSecretRef ∧
    (Reconcile f σ).ops.all (fun op => !op.touchesCredential) = true := by
  rcases Reconcile_state_refSet f σ res hσ h with ⟨h1, h2⟩
  rw [hσ] at h2
  refine ⟨h1, ?_, ?_⟩
  · cases hA : (Reconcile f σ).state.auth with
    | none => rw [hA] at h2; simp at h2
    | some res' =>
      rw [hA] at h2
      simp at h2
      simp [h2]
  · rw [List.all_eq_true]
    intro op hop
    have hp := Reconcile_ops_pred f σ (fun op => op.touchesCredential = false) rfl
      (by
        intro ba hok op' hop'
        have hba : ba = res := by
          have h3 := getAuthOp_okAuth f σ ba hok
          rw [hσ] at h3
          injection h3 with h3
          exact h3.symm
        subst hba
        rw [credentialPhase_refSet_eq f σ ba h] at hop'
        cases hs : getSecretOp f σ ba.spec.credentialsSecretRef with
        | ok s => rw [hs] at hop'; simp [Step.stepOps] at hop'; rw [hop']; rfl
        | error e => rw [hs] at hop'; simp [Step.stepOps] at hop'; rw [hop']; rfl)
      (fun σ1 ba1 => configPhase_ops_pred f σ1 ba1 _
        (fun n => rfl) (fun c hc => rfl) (fun c => rfl))
      (fun σ2 ba1 cm cred => workloadPhase_ops_pred f σ2 ba1 cm cred _
        rfl (fun n => rfl) (fun d hd => rfl) (fun d => rfl) (fun a => rfl)) op hop
    simp [hp]

/-- C2, witness. -/
theorem C2_credential_stability_witness :
    (Reconcile noFaults defaultedState).state.secrets = defaultedState.secrets ∧
    ((Reconcile noFaults defaultedState).state.auth).map
        (fun a => a.spec.credentialsSecretRef)
      = some refSetAuth.spec.credentialsSecretRef ∧
    (Reconcile noFaults defaultedState).ops.all (fun op => !op.touchesCredential) = true :=
  C2_credential_stability noFaults defaultedState refSetAuth rfl (by decide)

/-- C3: every create performed by the reconcile — credential secret,
config artifact, standalone deployment — logs an object carrying the
owner relation (the configmap and deployment get it from
`SetControllerReference` before `Create`, the secret from the builder),
while the sidecar injector only flips the proxy marker of the matched
workloads and preserves their owner flags, adding no owner relation. -/
theorem C3_ownership (f : Faults) (σ σ' : StoreState) (ba' : BasicAuthenticator) :
    (Reconcile f σ).ops.all Op.createCarriesOwner = true ∧
    (Injector ba' σ').map Deployment.hasOwner
      = (σ'.deployments.filter
          (fun d => d.spec.podLabels == ba'.spec.selector && !d.spec.hasProxy)).map
          Deployment.hasOwner := by
  constructor
  · rw [List.all_eq_true]
    intro op hop
    exact Reconcile_ops_pred f σ (fun op => op.createCarriesOwner = true) rfl
      (fun ba _ => credentialPhase_ops_pred f σ ba _
        (fun n => rfl) rfl (fun s hs => hs) (fun a => rfl))
      (fun σ1 ba1 => configPhase_ops_pred f σ1 ba1 _
        (fun n => rfl) (fun c hc => hc) (fun c => rfl))
      (fun σ2 ba1 cm cred => workloadPhase_ops_pred f σ2 ba1 cm cred _
        rfl (fun n => rfl) (fun d hd => hd) (fun d => rfl) (fun a => rfl)) op hop
  · show ((σ'.deployments.filter _).map injectProxy).map Deployment.hasOwner = _
    rw [List.map_map]
    exact List.map_congr_left (fun d _ => rfl)

/-- C4, counterexample: from the converged standalone state the reconcile
is a fixpoint on the store, yet a repeated run still performs a write —
the unconditional status update — so the claim that the second run
performs zero write operations is false on the code. -/
theorem C4_idempotence_counterexample :
    (Reconcile noFaults convergedState).state = convergedState ∧
    (Reconcile noFaults convergedState).ops.filter Op.isWrite ≠ [] := by decide

/-- C4, amended: re-running the reconcile against the converged standalone
state performs no create, no dependent update and no spec update, and
leaves the store unchanged, but it does perform exactly one write: the
status-subresource update, unconditionally re-writing the same readiness
value. -/
theorem C4_idempotence_amended :
    (Reconcile noFaults convergedState).state = convergedState ∧
    (Reconcile noFaults convergedState).error = none ∧
    (Reconcile noFaults convergedState).result.requeue = false ∧
    (Reconcile noFaults convergedState).ops.filter Op.isWrite =
      [Op.updateStatus ⟨"app", ⟨"app-credentials", "standalone", "", "cfg", 2⟩, ⟨3⟩⟩] := by
  decide

/-- C5, counterexample: a stored deployment agreeing with the freshly
derived one on every derived field and differing only in the
store-populated `defaulted` field still triggers a deployment update, so
the claim that the comparison is normalized and insensitive to
store-populated fields is false on the code (`reflect.DeepEqual` on whole
specs). -/
theorem C5_normalized_compare_counterexample :
    defaultedDep.spec.derived
      = (CreateNginxDeployment refSetAuth "app-nginx-conf" "app-credentials").spec.derived ∧
    defaultedDep.spec.podLabels
      = (CreateNginxDeployment refSetAuth "app-nginx-conf" "app-credentials").spec.podLabels ∧
    defaultedDep.spec.hasProxy
      = (CreateNginxDeployment refSetAuth "app-nginx-conf" "app-credentials").spec.hasProxy ∧
    defaultedDep.spec.defaulted
      ≠ (CreateNginxDeployment refSetAuth "app-nginx-conf" "app-credentials").spec.defaulted ∧
    Op.updateDeployment ⟨"app-nginx",
        (CreateNginxDeployment refSetAuth "app-nginx-conf" "app-credentials").spec, 3, true⟩
      ∈ (Reconcile noFaults defaultedState).ops := by decide

/-- C5, amended: the update decision in the standalone path is raw deep
structural equality of whole specs with no normalization: whenever the
fetched deployment's spec differs from the freshly derived one in any
field — including fields only the store populates — the deployment is
rewritten with the derived spec and updated. -/
theorem C5_normalized_compare_amended (f : Faults) (σ : StoreState)
    (res : BasicAuthenticator) (cm : ConfigMap) (d : Deployment)
    (hσ : σ.auth = some res) (hg : f.getAuthFail = false)
    (href : ¬ res.spec.credentialsSecretRef = "")
    (hs : ∃ s, getSecretOp f σ res.spec.credentialsSecretRef = .ok s)
    (hcm : getConfigMapOp f σ (CreateNginxConfigmap res).name = .ok cm)
    (hdata : (CreateNginxConfigmap res).data = cm.data)
    (hty : ¬ res.spec.type = "sidecar")
    (hd : getDeploymentOp f σ
        (CreateNginxDeployment res cm.name res.spec.credentialsSecretRef).name = .ok d)
    (hne : ¬ (CreateNginxDeployment res cm.name res.spec.credentialsSecretRef).spec = d.spec)
    (hu : d.name ∉ f.updateFail) :
    Op.updateDeployment
        ⟨d.name, (CreateNginxDeployment res cm.name res.spec.credentialsSecretRef).spec,
         d.readyReplicas, d.hasOwner⟩
      ∈ (Reconcile f σ).ops := by
  obtain ⟨s, hs⟩ := hs
  have hok : getAuthOp f σ = .ok res := by simp [getAuthOp, hg, hσ]
  have hcp : credentialPhase f σ res = .next (res, res.spec.credentialsSecretRef) σ
      [.getSecret res.spec.credentialsSecretRef] := by
    rw [credentialPhase_refSet_eq f σ res href, hs]
  have hcf : configPhase f σ res = .next cm σ
      [.getConfigMap (CreateNginxConfigmap res).name] := by
    simp only [configPhase]
    rw [hcm]
    simp [hdata]
  have hdn : d.name = (CreateNginxDeployment res cm.name res.spec.credentialsSecretRef).name :=
    getDeploymentOp_ok f σ _ d hd
  have hwp : Op.updateDeployment
      ⟨d.name, (CreateNginxDeployment res cm.name res.spec.credentialsSecretRef).spec,
       d.readyReplicas, d.hasOwner⟩
      ∈ (workloadPhase f σ res cm.name res.spec.credentialsSecretRef).ops := by
    simp only [workloadPhase]
    rw [if_neg hty, hd]
    simp only [Ne]
    rw [if_pos hne, if_neg (by simp [hu])]
    refine standaloneFinish_ops_sub f _ res d _ _ ?_
    simp
  exact Reconcile_ops_workload_sub f σ σ σ res res res.spec.credentialsSecretRef cm
    [.getSecret res.spec.credentialsSecretRef]
    [.getConfigMap (CreateNginxConfigmap res).name] hok hcp hcf _ hwp

/-- C5, witness for the amended theorem. -/
theorem C5_normalized_compare_witness :
    Op.updateDeployment ⟨"app-nginx",
        (CreateNginxDeployment refSetAuth matchingCM.name
          refSetAuth.spec.credentialsSecretRef).spec, 3, true⟩
      ∈ (Reconcile noFaults defaultedState).ops :=
  C5_normalized_compare_amended noFaults defaultedState refSetAuth matchingCM defaultedDep
    rfl rfl (by decide) ⟨refSecret, by decide⟩ (by decide) (by decide) (by decide)
    (by decide) (by decide) (by decide)

/-- C6: when the initial fetch of the AuthResource reports absence, the
invocation returns success — no error, no requeue — with the store
untouched, and its trace is the single resource read: no dependent object
is read or written. -/
theorem C6_absence_terminal (f : Faults) (σ : StoreState)
    (hσ : σ.auth = none) (hg : f.getAuthFail = false) :
    Reconcile f σ = ⟨⟨false⟩, none, σ, [Op.getAuth]⟩ ∧
    (Reconcile f σ).ops.all (fun op => !op.isDependent) = true := by
  have h : Reconcile f σ = ⟨⟨false⟩, none, σ, [Op.getAuth]⟩ := by
    unfold Reconcile
    simp [getAuthOp, hσ, hg]
  exact ⟨h, by rw [h]; rfl⟩

/-- C6, witness. -/
theorem C6_absence_terminal_witness :
    Reconcile noFaults deletedState = ⟨⟨false⟩, none, deletedState, [Op.getAuth]⟩ ∧
    (Reconcile noFaults deletedState).ops.all (fun op => !op.isDependent) = true :=
  C6_absence_terminal noFaults deletedState rfl rfl

/-- C7, counterexample: a sidecar-mode reconcile in which the injector
succeeds and both matched workloads are persisted returns success with no
status write at all — the trace contains two deployment updates and no
status-subresource update — so the claim that StatusReporter runs after a
successful SidecarInjector step is false on the code. -/
theorem C7_sidecar_status_counterexample :
    (Reconcile noFaults sidecarState).error = none ∧
    (Reconcile noFaults sidecarState).result.requeue = false ∧
    ((Reconcile noFaults sidecarState).ops.filter Op.isDeploymentUpdate).length = 2 ∧
    (Reconcile noFaults sidecarState).ops.filter Op.isStatusWrite = [] := by decide

/-- C7, amended: in sidecar mode the reconcile never writes the status
subresource on any path — after the injected workloads are persisted the
invocation returns without running the status step; status is written
only in the standalone path. -/
theorem C7_sidecar_no_status_amended (f : Faults) (σ : StoreState)
    (res : BasicAuthenticator) (hσ : σ.auth = some res)
    (hty : res.spec.type = "sidecar") :
    (Reconcile f σ).ops.all (fun op => !op.isStatusWrite) = true := by
  rw [List.all_eq_true]
  intro op hop
  have h := Reconcile_sidecar_no_status f σ res hσ hty op hop
  simp [h]

/-- C7, witness for the amended theorem. -/
theorem C7_sidecar_no_status_witness :
    (Reconcile noFaults sidecarState).ops.all (fun op => !op.isStatusWrite) = true :=
  C7_sidecar_no_status_amended noFaults sidecarState sidecarAuth rfl rfl

/-- C8, counterexample: with `credentialsSecretRef` set and the referenced
secret absent, the fetch fails with NotFound and the reconcile surfaces
exactly that error — so the claim that it fails only when the fetch fails
for a reason other than absence is false on the code, which has no
`IsNotFound` check on this path. -/
theorem C8_secret_absence_counterexample :
    (Reconcile noFaults danglingRefState).error = some StoreErr.notFound ∧
    (Reconcile noFaults danglingRefState).result.requeue = false ∧
    (Reconcile noFaults danglingRefState).ops.filter Op.isWrite = [] := by decide

/-- C8, amended: with `credentialsSecretRef` set, any failure of the
referenced-secret fetch — absence included — aborts the invocation and
surfaces the error unchanged, with no requeue flag, no write, and the
store untouched; NotFound receives no special retryable treatment. -/
theorem C8_secret_fetch_error_amended (f : Faults) (σ : StoreState)
    (res : BasicAuthenticator) (e : StoreErr)
    (hσ : σ.auth = some res) (hg : f.getAuthFail = false)
    (href : ¬ res.spec.credentialsSecretRef = "")
    (herr : getSecretOp f σ res.spec.credentialsSecretRef = .error e) :
    Reconcile f σ = ⟨⟨false⟩, some e, σ,
      [Op.getAuth, Op.getAuth, Op.getSecret res.spec.credentialsSecretRef]⟩ := by
  have hok : getAuthOp f σ = .ok res := by simp [getAuthOp, hg, hσ]
  have hcp : credentialPhase f σ res = .done ⟨false⟩ (some e) σ
      [.getSecret res.spec.credentialsSecretRef] := by
    rw [credentialPhase_refSet_eq f σ res href, herr]
  unfold Reconcile
  simp [hok, hcp]

/-- C8, witness for the amended theorem, at the NotFound instance. -/
theorem C8_secret_fetch_error_witness :
    Reconcile noFaults danglingRefState = ⟨⟨false⟩, some StoreErr.notFound, danglingRefState,
      [Op.getAuth, Op.getAuth, Op.getSecret danglingRefAuth.spec.credentialsSecretRef]⟩ :=
  C8_secret_fetch_error_amended noFaults danglingRefState danglingRefAuth StoreErr.notFound
    rfl rfl (by decide) (by decide)

/-- C9: the status write uses the status-only path: `putAuthStatus` keeps
the stored spec whatever the in-memory copy's (possibly stale) spec says,
and the whole workload phase — the only place the status write occurs —
leaves the stored AuthResource's spec unchanged on every path. -/
theorem C9_status_only_update (σ : StoreState) (given : BasicAuthenticator)
    (f : Faults) (ba : BasicAuthenticator) (cm cred : String) :
    ((putAuthStatus σ given).auth).map (fun a => a.spec) = σ.auth.map (fun a => a.spec) ∧
    ((workloadPhase f σ ba cm cred).state.auth).map (fun a => a.spec)
      = σ.auth.map (fun a => a.spec) := by
  constructor
  · cases hσ : σ.auth with
    | none => simp [putAuthStatus, hσ]
    | some stored => simp [putAuthStatus, hσ, applyStatusUpdate]
  · exact (workloadPhase_state_frame f σ ba cm cred).2.2

/-- C10: with an empty `credentialsSecretRef`, whenever the lookup of the
deterministically named candidate secret yields anything but NotFound —
the secret exists, or the lookup fails transiently — the invocation
returns a requeue with a nil error (the lookup error is discarded),
performs no write, and leaves the store, and so the empty reference,
unchanged. -/
theorem C10_candidate_lookup (f : Faults) (σ : StoreState) (res : BasicAuthenticator)
    (hσ : σ.auth = some res) (hg : f.getAuthFail = false)
    (h0 : res.spec.credentialsSecretRef = "")
    (hnn : getSecretOp f σ (CreateCredentials res).name ≠ .error .notFound) :
    Reconcile f σ = ⟨⟨true⟩, none, σ,
      [Op.getAuth, Op.getAuth, Op.getSecret (CreateCredentials res).name]⟩ := by
  have hok : getAuthOp f σ = .ok res := by simp [getAuthOp, hg, hσ]
  have hcp : credentialPhase f σ res = .done ⟨true⟩ none σ
      [.getSecret (CreateCredentials res).name] := by
    simp only [credentialPhase]
    rw [if_pos h0]
  unfold Reconcile
  simp [hok, hcp]

/-- C10, witness: the candidate lookup fails with a transient error; the
invocation requeues with a nil error and writes nothing. -/
theorem C10_candidate_lookup_witness :
    Reconcile lookupFaults scenarioState = ⟨⟨true⟩, none, scenarioState,
      [Op.getAuth, Op.getAuth, Op.getSecret (CreateCredentials scenarioAuth).name]⟩ :=
  C10_candidate_lookup lookupFaults scenarioState scenarioAuth rfl rfl rfl (by decide)

end BasicAuth
